import Mathlib

set_option autoImplicit false

/-
Shallow embedding of the BigInt arbitrary-precision integer library
(src/bigint.hpp, src/bigint_bit_arith.cpp, src/bigint_divmod.cpp).

A BigInt<IntT> object is modelled by its active limb vector: `len` limbs in
little-endian order, each strictly below 2^L where L = LIMB = 8*sizeof(IntT).
Buffer cells at indices at or beyond `len` are held at zero in the C++ object
(the code re-establishes this after every mutation), which the model reflects
by reading 0 past the end of `val`.  Capacity management (`cap_`, `Resize`,
`AutoExpandSize`, `AutoShrinkSize`) does not affect any observable limb or
length and is not modelled.

The files bigint_basic.cpp / bigint_add_sub.cpp / bigint_mul.cpp of the
repository are not under src/; the member functions they define (`Sign`,
`ShrinkLen`, `SetLen`, `ToOpposite`, comparison, `+=`, `-=`, scalar `*`)
are modelled from the spec, each marked in its doc comment.
-/

structure BigInt where
  len : Nat
  val : List Nat
  deriving DecidableEq

namespace BigInt

/-- Read buffer cell `i`: cells past the active length hold zero. -/
def limb (a : BigInt) (i : Nat) : Nat := a.val.getD i 0

/-- Unsigned value of the active limbs, little-endian base 2^L. -/
def valNat (L : Nat) (a : BigInt) : Nat :=
  a.val.foldr (fun x acc => x + acc * 2 ^ L) 0

/-- Modelled from the spec: `Sign()` (member not under src/) — §3 "the top bit
    of `val[len-1]` is the sign". -/
def Sign (L : Nat) (a : BigInt) : Bool := decide (2 ^ (L - 1) ≤ limb a (a.len - 1))

/-- Signed value of the object: two's complement over `len*L` bits (§3). -/
def toInt (L : Nat) (a : BigInt) : Int :=
  if Sign L a then (valNat L a : Int) - 2 ^ (a.len * L) else (valNat L a : Int)

/-- Decompose `x` into `n` little-endian limbs of `L` bits each. -/
def toLimbs (L n x : Nat) : List Nat :=
  match n with
  | 0 => []
  | n + 1 => x % 2 ^ L :: toLimbs L n (x / 2 ^ L)

/-- The top limb is redundant for the §3 sign invariant: it is all-zero over a
    clear next sign bit, or all-one over a set next sign bit. -/
def topRedundant (L : Nat) (a : BigInt) : Bool :=
  decide (2 ≤ a.len) &&
    ((decide (limb a (a.len - 1) = 0) && decide (limb a (a.len - 2) < 2 ^ (L - 1))) ||
     (decide (limb a (a.len - 1) = 2 ^ L - 1) && decide (2 ^ (L - 1) ≤ limb a (a.len - 2))))

def shrinkLenAux (L : Nat) : Nat → BigInt → BigInt
  | 0, a => a
  | fuel + 1, a =>
    if topRedundant L a then shrinkLenAux L fuel ⟨a.len - 1, a.val.take (a.len - 1)⟩ else a

/-- Modelled from the spec: `ShrinkLen()` (member not under src/) — §4.A
    "strips redundant top limbs" while `len ≥ 2`, preserving the sign. -/
def ShrinkLen (L : Nat) (a : BigInt) : BigInt := shrinkLenAux L a.len a

/-- Modelled from the spec: `SetLen(new_len, preserve_sign)` (member not under
    src/) — §4.A: truncate (discarded cells zeroed) or extend, sign-extending
    from the old top limb when `preserve_sign`, else zero-extending. -/
def SetLen (L : Nat) (a : BigInt) (newLen : Nat) (preserveSign : Bool) : BigInt :=
  if newLen ≤ a.len then ⟨newLen, a.val.take newLen⟩
  else
    let fill := if preserveSign && Sign L a then 2 ^ L - 1 else 0
    ⟨newLen, a.val ++ List.replicate (newLen - a.len) fill⟩

/-- Modelled from the spec: `ToOpposite()` (member not under src/) — §3
    "Negation is two's-complement: ~x + 1 over the active limbs, with a length
    bump if the sign bit would otherwise be wrong."  The bump happens exactly
    when a negative input (necessarily the minimum of its width) negates to a
    buffer whose top bit is still set; a zero limb is then appended. -/
def ToOpposite (L : Nat) (a : BigInt) : BigInt :=
  let m := 2 ^ (a.len * L)
  let x := (m - valNat L a % m) % m
  let b : BigInt := ⟨a.len, toLimbs L a.len x⟩
  if Sign L a && Sign L b then ⟨a.len + 1, b.val ++ [0]⟩ else b

/-- Modelled from the spec: unary `operator-` — a copy followed by
    `ToOpposite` (§3). -/
def neg (L : Nat) (a : BigInt) : BigInt := ToOpposite L a

/-- Modelled from the spec: `operator<` — §4.C specifies the signed three-way
    compare (sign first, then canonical length, then limbs top-down), which
    orders objects by numeric value. -/
def blt (L : Nat) (a b : BigInt) : Bool := decide (toInt L a < toInt L b)

/-- Modelled from the spec: `operator==` — §3 "Equality is numeric". -/
def beq (L : Nat) (a b : BigInt) : Bool := decide (toInt L a = toInt L b)

/-- `x` fits in `n` limbs of `L` bits as a signed two's-complement value. -/
def fitsLen (L n : Nat) (x : Int) : Bool :=
  decide (-(2 ^ (n * L - 1) : Int) ≤ x) && decide (x < 2 ^ (n * L - 1))

def minLenAux (L : Nat) (x : Int) : Nat → Nat → Nat
  | 0, n => n
  | fuel + 1, n => if fitsLen L n x then n else minLenAux L x fuel (n + 1)

/-- Modelled from the spec: the canonical §3 representation of an integer
    value — smallest `len ≥ 1` whose two's-complement range contains the
    value, the buffer holding the value modulo `2^(len*L)`.  This is the
    normal form every §4.B mutating operation re-establishes via `ShrinkLen`. -/
def ofInt (L : Nat) (x : Int) : BigInt :=
  let n := minLenAux L x x.natAbs 1
  ⟨n, toLimbs L n (x % (2 ^ (n * L) : Nat)).toNat⟩

/-- Modelled from the spec: `operator+=` on values — §4.B additive arithmetic
    (source file not under src/), with §3 canonicalization. -/
def addB (L : Nat) (a b : BigInt) : BigInt := ofInt L (toInt L a + toInt L b)

/-- Modelled from the spec: `operator-=` on values — §4.B `a + (-b)`
    (source file not under src/), with §3 canonicalization. -/
def subB (L : Nat) (a b : BigInt) : BigInt := ofInt L (toInt L a - toInt L b)

/-- Modelled from the spec: `operator*(BigInt, IntT)` — §4.D scalar multiply
    with carry (source file not under src/), with §3 canonicalization. -/
def mulScalar (L : Nat) (a : BigInt) (r : Nat) : BigInt := ofInt L (toInt L a * (r : Int))

/-- `operator<<=(size_t)` (src/bigint_bit_arith.cpp lines 64-88).
    With `q = rhs / LIMB`, `r = rhs % LIMB`, `new_len = len + q + (r>0)`:
    for `r ≠ 0` the loop fills cells above `q` from two source limbs and then
    sets cell `q` to `val[0] << r`; for `r = 0` the loop writes only cells
    strictly above `q`, so cell `q` keeps the prior buffer content `limb a q`.
    The bottom `q` cells are zeroed, `len` becomes `new_len`, and one zero top
    limb is dropped.  The `new_len < len_` size_t-overflow clamp and the
    `q >= new_len` branch are unreachable for `len ≤ MAX_CAP` and are mirrored
    but vacuous in ℕ.  `shlCell` is the buffer cell the loop leaves at index
    `i`; `shlAssign` is the whole operator. -/
def shlCell (L q r : Nat) (a : BigInt) (i : Nat) : Nat :=
  if i < q then 0
  else if 0 < r then
    if i = q then limb a 0 * 2 ^ r % 2 ^ L
    else (limb a (i - q) * 2 ^ r + limb a (i - q - 1) / 2 ^ (L - r)) % 2 ^ L
  else if i = q then limb a q
  else limb a (i - q)

def shlAssign (L : Nat) (a : BigInt) (rhs : Nat) : BigInt :=
  let q := rhs / L
  let r := rhs % L
  let newLen := a.len + q + (if 0 < r then 1 else 0)
  if newLen ≤ q then ⟨1, [0]⟩
  else if 1 < newLen ∧ shlCell L q r a (newLen - 1) = 0 then
    ⟨newLen - 1, (List.range (newLen - 1)).map (shlCell L q r a)⟩
  else ⟨newLen, (List.range newLen).map (shlCell L q r a)⟩

/-- `operator>>=(size_t)` (src/bigint_bit_arith.cpp lines 90-113).
    With `q = rhs / LIMB`, `r = rhs % LIMB`: when `q ≥ len` the result is a
    single zero limb; otherwise cells shift down (for `r ≠ 0` combining two
    source limbs, the top cell being `val[len-1] >> r` with zeros shifted in),
    `len` becomes `len - q`, and one zero top limb is dropped.  `shrCell` is
    the buffer cell the loop leaves at index `i` (the top index is
    `len - q - 1`); `shrAssign` is the whole operator. -/
def shrCell (L q r : Nat) (a : BigInt) (i : Nat) : Nat :=
  if 0 < r then
    if i = a.len - q - 1 then limb a (a.len - 1) / 2 ^ r
    else (limb a (i + q) / 2 ^ r + limb a (i + q + 1) * 2 ^ (L - r)) % 2 ^ L
  else limb a (i + q)

def shrAssign (L : Nat) (a : BigInt) (rhs : Nat) : BigInt :=
  let q := rhs / L
  let r := rhs % L
  if a.len ≤ q then ⟨1, [0]⟩
  else
    let newLen := a.len - q
    if 1 < newLen ∧ shrCell L q r a (newLen - 1) = 0 then
      ⟨newLen - 1, (List.range (newLen - 1)).map (shrCell L q r a)⟩
    else ⟨newLen, (List.range newLen).map (shrCell L q r a)⟩

/-- Trailing zero bits of `n` (the `while (!(tmp_rhs & 1))` loop of
    `BasicDivEq`; the C++ loop requires a nonzero argument, fuel makes the
    model total). -/
def ctzAux : Nat → Nat → Nat
  | 0, _ => 0
  | fuel + 1, n => if n % 2 = 1 then 0 else ctzAux fuel (n / 2) + 1

def ctz (n : Nat) : Nat := ctzAux n n

/-- The high-to-low sweep of `BasicDivEq` (src/bigint_divmod.cpp lines 78-81):
    processes limb indices `i, i-1, …, 0`, threading the 64-bit accumulator
    `t = ((t % rhs) << LIMB) | val[i]` and emitting `val[i] = IntT(t / rhs)`.
    Returns the final `t` and the new limb list for positions `0..i`. -/
def basicDivSweep (L : Nat) (a : BigInt) (rhs : Nat) : Nat → Nat → Nat × List Nat
  | t, 0 =>
    let t1 := t % rhs * 2 ^ L + limb a 0
    (t1, [t1 / rhs % 2 ^ L])
  | t, i + 1 =>
    let t1 := t % rhs * 2 ^ L + limb a (i + 1)
    let rest := basicDivSweep L a rhs t1 i
    (rest.1, rest.2 ++ [t1 / rhs % 2 ^ L])

/-- `BasicDivEq(IntT rhs, IntT* mod)` (src/bigint_divmod.cpp lines 61-93).
    Returns the mutated object and the value written through `mod`
    (`none` when no write happened: null pointer, or the early
    `rhs == 0 || rhs == 1` return which skips the write entirely). -/
def BasicDivEq (L : Nat) (a : BigInt) (rhs : Nat) (useMod : Bool) : BigInt × Option Nat :=
  if rhs = 0 ∨ rhs = 1 then (a, none)
  else
    let sign := Sign L a
    let a1 := if sign = true then ToOpposite L a else a
    let logRhs := ctz rhs
    let tmpRhs := rhs / 2 ^ logRhs
    let core : BigInt × Nat :=
      if a1.len = 1 then (⟨a1.len, [limb a1 0 / rhs % 2 ^ L]⟩, limb a1 0 % rhs)
      else if tmpRhs = 1 then (shrAssign L a1 logRhs, 0)
      else
        let s := basicDivSweep L a1 rhs 0 (a1.len - 1)
        (⟨a1.len, s.2⟩, s.1)
    let a2 := if sign = true then ToOpposite L core.1 else core.1
    let a3 := ShrinkLen L a2
    let m : Option Nat :=
      if useMod then
        some (if sign = true ∧ core.2 ≠ 0 then rhs - core.2 % rhs else core.2 % rhs)
      else none
    (a3, m)

/-- Number of base-2^L digits written by the `while (z) { val_[i++] = IntT(z);
    z >>= LIMB; }` unpacking loops of `PlainDivEq` (nonzero argument). -/
def digitsLenAux (L : Nat) : Nat → Nat → Nat
  | 0, _ => 0
  | fuel + 1, z => if z = 0 then 0 else digitsLenAux L fuel (z / 2 ^ L) + 1

def digitsLen (L z : Nat) : Nat := digitsLenAux L z z

/-- `PlainDivEq(const BigInt&, BigInt*)` (src/bigint_divmod.cpp lines 95-128).
    Limbs are packed into uint64 accumulators (modulo 2^64; the caller must
    ensure `len*LIMB ≤ 64`); a negative divisor is "negated" by the plain
    uint64 `y = 0 - y` on the packed value, without prior sign extension.
    The quotient gets a zero guard limb when its top bit ends up set; the
    remainder output does not. -/
def PlainDivEq (L : Nat) (a rhs : BigInt) (useMod : Bool) : BigInt × Option BigInt :=
  if toInt L rhs = 0 then (a, none)
  else
    let sign := Sign L a
    let a1 := if sign = true then ToOpposite L a else a
    let x := valNat L a1 % 2 ^ 64
    let y0 := valNat L rhs % 2 ^ 64
    let y := if Sign L rhs = true then (2 ^ 64 - y0) % 2 ^ 64 else y0
    let z := x / y
    let w := x - z * y
    let zn := if z = 0 then 1 else digitsLen L z
    let q1 : BigInt := ⟨zn, toLimbs L zn z⟩
    let q2 := if Sign L q1 = true then SetLen L q1 (q1.len + 1) false else q1
    let q3 := if (sign = true) ≠ (Sign L rhs = true) then ToOpposite L q2 else q2
    let m : Option BigInt :=
      if useMod then
        let wn := if w = 0 then 1 else digitsLen L w
        let m1 : BigInt := ⟨wn, toLimbs L wn w⟩
        some (if sign = true then ToOpposite L m1 else m1)
      else none
    (q3, m)

/-- One step per iteration of the normalization loop of `DivEqAlgA`:
    `while (test_tmp < IntT(1) << (LIMB-1)) { test_tmp <<= 1; ++mov; }`
    (the doubling wraps at the limb width, as the IntT shift does). -/
def movAux (L : Nat) : Nat → Nat → Nat
  | 0, _ => 0
  | fuel + 1, t => if t < 2 ^ (L - 1) then movAux L fuel (t * 2 % 2 ^ L) + 1 else 0

/-- Normalization shift count of `DivEqAlgA` (the loop above, fuel `L`).
    Defined for `1 ≤ top < 2^L`, where at most `L - 1` doublings occur; on a
    zero top limb the C++ loop does not terminate, which is outside the
    modelled domain. -/
def movOf (L top : Nat) : Nat := movAux L L top

/-- The clamped trial quotient of `DivEqAlgA`: `q = u1 / v1;
    if (q >= b) q = b - 1;` (src/bigint_divmod.cpp lines 244-245). -/
def algAClamp (L u1 v1 : Nat) : Nat :=
  if 2 ^ L ≤ u1 / v1 then 2 ^ L - 1 else u1 / v1

/-- The Algorithm A trial-quotient computation (src/bigint_divmod.cpp lines
    244-250, identically 180-186): `q = u1 / v1` clamped to `2^LIMB - 1`,
    `r = u1 - q*v1`, then a single refinement step guarded by the uint64
    comparison `q*v2 > b*r + u2` (the right-hand side wraps modulo 2^64;
    the left-hand side cannot, as `q < 2^32` and `v2 < 2^32`). -/
def algATrialQ (L v1 v2 u1 u2 : Nat) : Nat :=
  if (2 ^ L * (u1 - algAClamp L u1 v1 * v1) + u2) % 2 ^ 64 < algAClamp L u1 v1 * v2
  then algAClamp L u1 v1 - 1 else algAClamp L u1 v1

/-- Loop state of the Algorithm A main loop: the mutated dividend (which
    carries the running remainder), the quotient limb buffer, and the
    virtually-shifted top window `u1`. -/
structure AlgASt where
  rem : BigInt
  resv : List Nat
  u1 : Nat
  deriving DecidableEq

/-- One iteration of the `DivEqAlgA` main loop at position `i`
    (src/bigint_divmod.cpp lines 236-259): window reads (with the virtual
    `mov`-bit shift), trial quotient, subtraction of `(v * q̂) << (i*LIMB)`
    through the library's own shift and (spec-modelled) arithmetic, the
    sign-based add-back, the quotient store, and the `u1` rebuild. -/
def algAStep (L : Nat) (vObj : BigInt) (mov v1 v2 : Nat) (i : Nat) (s : AlgASt) : AlgASt :=
  let n := vObj.len
  let u1 := if 0 < mov then
      s.u1 * 2 ^ mov % 2 ^ 64 + limb s.rem (i + n - 2) / 2 ^ (L - mov)
    else s.u1
  let u2 := if 0 < mov then
      limb s.rem (i + n - 2) * 2 ^ mov % 2 ^ L + limb s.rem (i + n - 3) / 2 ^ (L - mov)
    else limb s.rem (i + n - 2)
  let q2 := algATrialQ L v1 v2 u1 u2
  let rem1 := subB L s.rem (shlAssign L (mulScalar L vObj q2) (i * L))
  let qr : Nat × BigInt :=
    if Sign L rem1 = true then (q2 - 1, addB L rem1 (shlAssign L vObj (i * L)))
    else (q2, rem1)
  let u1' := limb qr.2 (i + n - 1) * 2 ^ L + limb qr.2 (i + n - 2)
  { rem := qr.2, resv := s.resv.set i qr.1, u1 := u1' }

/-- Driver for the `for (i = len-n; i != size_t(-1); --i)` loop: `k`
    iterations remain, the next one at position `k - 1`. -/
def algALoop (L : Nat) (vObj : BigInt) (mov v1 v2 : Nat) : Nat → AlgASt → AlgASt
  | 0, s => s
  | k + 1, s => algALoop L vObj mov v1 v2 k (algAStep L vObj mov v1 v2 k s)

/-- `DivEqAlgA(const BigInt&, BigInt*)` (src/bigint_divmod.cpp lines 130-272).
    The negative- and positive-divisor branches coincide after replacing the
    divisor by `tmp_obj = -rhs` in the former, which the model expresses by
    the single `vObj`.  Delegation branches: quotient zero when |a| < |b|,
    `PlainDivEq` when both fit 64 bits, `BasicDivEq` for a one-limb divisor
    (where a null-pointer `mod` stays unwritten and otherwise the value lands
    in `mod->val_[0]` followed by `SetLen(1, false)`), else the main loop.
    At the end the remainder receives the dividend's sign and both outputs
    are shrunk. -/
def DivEqAlgA (L : Nat) (a rhs : BigInt) (useMod : Bool) : BigInt × Option BigInt :=
  if toInt L rhs = 0 then (a, none)
  else
    let sign := Sign L a
    let a1 := if sign = true then ToOpposite L a else a
    let vObj := if Sign L rhs = true then neg L rhs else rhs
    let mov := movOf L (limb vObj (vObj.len - 1))
    let core : BigInt × Option BigInt :=
      if toInt L a1 < toInt L vObj then
        (⟨1, [0]⟩, if useMod then some a1 else none)
      else if vObj.len ≤ 64 / L ∧ a1.len ≤ 64 / L then
        PlainDivEq L a1 vObj useMod
      else if vObj.len = 1 then
        let bd := BasicDivEq L a1 (limb vObj 0) useMod
        (bd.1, if useMod then some ⟨1, [bd.2.getD 0]⟩ else none)
      else
        let n := vObj.len
        let v1 := if 0 < mov then
            limb vObj (n - 1) * 2 ^ mov % 2 ^ L + limb vObj (n - 2) / 2 ^ (L - mov)
          else limb vObj (n - 1)
        let v2 := if 0 < mov then
            limb vObj (n - 2) * 2 ^ mov % 2 ^ L + limb vObj (n - 3) / 2 ^ (L - mov)
          else limb vObj (n - 2)
        let res0 := SetLen L ⟨1, [0]⟩ (a1.len - n + 2) false
        let s0 : AlgASt := { rem := a1, resv := res0.val, u1 := limb a1 (a1.len - 1) }
        let s1 := algALoop L vObj mov v1 v2 (a1.len - n + 1) s0
        let result : BigInt := ⟨res0.len, s1.resv⟩
        let quot := if (sign = true) ≠ (Sign L rhs = true) then neg L result else result
        (quot, if useMod then some s1.rem else none)
    let mfin := core.2.map (fun mm => ShrinkLen L (if sign = true then ToOpposite L mm else mm))
    (ShrinkLen L core.1, mfin)

/-- Loop state of the Algorithm B main loop. -/
structure AlgBSt where
  rem : BigInt
  resv : List Nat
  u : Nat
  deriving DecidableEq

/-- One iteration of the `DivEqAlgB` main loop at position `i`
    (src/bigint_divmod.cpp lines 347-358): three-limb window `u`, two-limb
    divisor head `v`, clamped trial `q̂ = u / v`, subtraction, add-back,
    quotient store, window rebuild. -/
def algBStep (L : Nat) (vObj : BigInt) (v : Nat) (i : Nat) (s : AlgBSt) : AlgBSt :=
  let b := 2 ^ L
  let n := vObj.len
  let q0 := s.u / v
  let q1 := if b ≤ q0 then b - 1 else q0
  let rem1 := subB L s.rem (shlAssign L (mulScalar L vObj q1) (i * L))
  let qr : Nat × BigInt :=
    if Sign L rem1 = true then (q1 - 1, addB L rem1 (shlAssign L vObj (i * L)))
    else (q1, rem1)
  let u' := (limb qr.2 (i + n - 1) * 2 ^ (2 * L) + limb qr.2 (i + n - 2) * 2 ^ L +
    limb qr.2 (i + n - 3)) % 2 ^ 64
  { rem := qr.2, resv := s.resv.set i qr.1, u := u' }

def algBLoop (L : Nat) (vObj : BigInt) (v : Nat) : Nat → AlgBSt → AlgBSt
  | 0, s => s
  | k + 1, s => algBLoop L vObj v k (algBStep L vObj v k s)

/-- `DivEqAlgB(const BigInt&, BigInt*)` (src/bigint_divmod.cpp lines 273-371).
    For `LIMB > 21` it executes Algorithm A instead: the uint32 template
    specialization (lines 273-276) and the generic `if constexpr (LIMB > 21)`
    (line 280) both redirect to `DivEqAlgA`.  Otherwise the structure mirrors
    `DivEqAlgA` with a two-limb divisor head and three-limb window and no
    normalization or refinement step. -/
def DivEqAlgB (L : Nat) (a rhs : BigInt) (useMod : Bool) : BigInt × Option BigInt :=
  if 21 < L then DivEqAlgA L a rhs useMod
  else if toInt L rhs = 0 then (a, none)
  else
    let sign := Sign L a
    let a1 := if sign = true then ToOpposite L a else a
    let vObj := if Sign L rhs = true then neg L rhs else rhs
    let core : BigInt × Option BigInt :=
      if toInt L a1 < toInt L vObj then
        (⟨1, [0]⟩, if useMod then some a1 else none)
      else if vObj.len ≤ 64 / L ∧ a1.len ≤ 64 / L then
        PlainDivEq L a1 vObj useMod
      else if vObj.len = 1 then
        let bd := BasicDivEq L a1 (limb vObj 0) useMod
        (bd.1, if useMod then some ⟨1, [bd.2.getD 0]⟩ else none)
      else
        let n := vObj.len
        let v := limb vObj (n - 1) * 2 ^ L + limb vObj (n - 2)
        let res0 := SetLen L ⟨1, [0]⟩ (a1.len - n + 2) false
        let u0 := limb a1 (a1.len - 1) * 2 ^ L + limb a1 (a1.len - 2)
        let s0 : AlgBSt := { rem := a1, resv := res0.val, u := u0 }
        let s1 := algBLoop L vObj v (a1.len - n + 1) s0
        let result : BigInt := ⟨res0.len, s1.resv⟩
        let quot := if (sign = true) ≠ (Sign L rhs = true) then neg L result else result
        (quot, if useMod then some s1.rem else none)
    let mfin := core.2.map (fun mm => ShrinkLen L (if sign = true then ToOpposite L mm else mm))
    (ShrinkLen L core.1, mfin)

/-- `operator/=(const BigInt&)` (src/bigint_divmod.cpp lines 33-45): the
    four-way dispatch of the quotient assignment. -/
def divAssign (L : Nat) (a rhs : BigInt) : BigInt :=
  if a.len ≤ 64 / L ∧ rhs.len ≤ 64 / L then (PlainDivEq L a rhs false).1
  else if rhs.len = 1 then (BasicDivEq L a (limb rhs 0) false).1
  else if 21 < L then (DivEqAlgA L a rhs false).1
  else (DivEqAlgB L a rhs false).1

/-- `operator%=(const BigInt&)` (src/bigint_divmod.cpp lines 47-59): a
    default-constructed `mod` object is passed down and then moved into the
    receiver; when the callee's zero-divisor early return leaves `mod`
    untouched, the moved-in value is that default zero. -/
def modAssign (L : Nat) (a rhs : BigInt) : BigInt :=
  let mod0 : BigInt := ⟨1, [0]⟩
  if a.len ≤ 64 / L ∧ rhs.len ≤ 64 / L then ((PlainDivEq L a rhs true).2).getD mod0
  else if 21 < L then ((DivEqAlgA L a rhs true).2).getD mod0
  else ((DivEqAlgB L a rhs true).2).getD mod0

/-- `BasicDiv` (src/bigint_divmod.cpp lines 374-377): non-modifying wrapper. -/
def BasicDiv (L : Nat) (lhs : BigInt) (rhs : Nat) (useMod : Bool) : BigInt × Option Nat :=
  BasicDivEq L lhs rhs useMod

/-- `PlainDiv` (src/bigint_divmod.cpp lines 378-382): non-modifying wrapper. -/
def PlainDiv (L : Nat) (lhs rhs : BigInt) (useMod : Bool) : BigInt × Option BigInt :=
  PlainDivEq L lhs rhs useMod

/-- `DivAlgA` (src/bigint_divmod.cpp lines 383-386): non-modifying wrapper. -/
def DivAlgA (L : Nat) (lhs rhs : BigInt) (useMod : Bool) : BigInt × Option BigInt :=
  DivEqAlgA L lhs rhs useMod

/-- `DivAlgB` (src/bigint_divmod.cpp lines 387-390): non-modifying wrapper. -/
def DivAlgB (L : Nat) (lhs rhs : BigInt) (useMod : Bool) : BigInt × Option BigInt :=
  DivEqAlgB L lhs rhs useMod

/-- size_t subtraction, wrapping modulo 2^64, as it occurs in the limb index
    expressions of `DivEqAlgA`. -/
def sub64 (x y : Nat) : Nat := (x + (2 ^ 64 - y % 2 ^ 64)) % 2 ^ 64

/-- The buffer index of the low source limb in the `v2` normalization read
    `rhs.val_[rhs.len_ - 3]` (src/bigint_divmod.cpp lines 165 and 230),
    evaluated in size_t arithmetic. -/
def algAV2LowIdx (blen : Nat) : Nat := sub64 blen 3

/-- The buffer index of the low source limb in the `u2` window read
    `val_[i + rhs.len_ - 3]` (src/bigint_divmod.cpp lines 176 and 240),
    evaluated in size_t arithmetic. -/
def algAU2LowIdx (i blen : Nat) : Nat := sub64 (i + blen) 3

end BigInt

lemma getD_range_map (f : Nat → Nat) (n i : Nat) (h : i < n) :
    ((List.range n).map f).getD i 0 = f i := by
  have hlen : i < ((List.range n).map f).length := by simpa using h
  rw [List.getD_eq_getElem _ _ hlen]
  simp

/-- C1: the division identity fails on the code.  With LIMB = 8, a = 128 and
    b = 384 (both canonical), `a /= b` yields quotient 0 while `a %= b` yields
    −128 (the `PlainDivEq` remainder unpacking emits the limb 0x80 with no
    zero guard limb, so the positive remainder 128 reads back as −128): hence
    a ≠ q·b + r and r is nonzero with sign opposite to a. -/
theorem c1_division_identity_fails_at_128_mod_384 :
    BigInt.toInt 8 (⟨2, [128, 0]⟩ : BigInt) = 128 ∧
    BigInt.toInt 8 (⟨2, [128, 1]⟩ : BigInt) = 384 ∧
    BigInt.toInt 8 (BigInt.divAssign 8 ⟨2, [128, 0]⟩ ⟨2, [128, 1]⟩) = 0 ∧
    BigInt.toInt 8 (BigInt.modAssign 8 ⟨2, [128, 0]⟩ ⟨2, [128, 1]⟩) = -128 ∧
    ¬(BigInt.toInt 8 (⟨2, [128, 0]⟩ : BigInt) =
        BigInt.toInt 8 (BigInt.divAssign 8 ⟨2, [128, 0]⟩ ⟨2, [128, 1]⟩) *
          BigInt.toInt 8 (⟨2, [128, 1]⟩ : BigInt) +
        BigInt.toInt 8 (BigInt.modAssign 8 ⟨2, [128, 0]⟩ ⟨2, [128, 1]⟩)) := by
  decide

/-- C2: `a /= 0` is indeed a quiet no-op, but `a %= 0` (BigInt divisor) is
    not: `operator%=` passes a default-constructed `mod` down, the callee's
    zero-divisor early return leaves it untouched, and the dispatcher then
    moves that zero into the receiver, so 5 % 0 yields 0, not 5. -/
theorem c2_mod_by_zero_yields_zero_not_dividend :
    BigInt.toInt 8 (BigInt.divAssign 8 ⟨1, [5]⟩ ⟨1, [0]⟩) = 5 ∧
    BigInt.toInt 8 (BigInt.modAssign 8 ⟨1, [5]⟩ ⟨1, [0]⟩) = 0 ∧
    BigInt.toInt 8 (BigInt.modAssign 8 ⟨1, [5]⟩ ⟨1, [0]⟩) ≠
      BigInt.toInt 8 (⟨1, [5]⟩ : BigInt) := by
  decide

/-- C3: the four division routines do not agree on a common input.  With
    LIMB = 16, a = 65537 and b = 2 every routine is defined (b is a nonzero
    single limb and both operands fit 64 bits), `PlainDiv`, `DivAlgA` and
    `DivAlgB` return quotient 32768 and remainder 1, but `BasicDiv` takes its
    power-of-two right-shift path, which never updates the accumulator `t`:
    it writes remainder 0 and (through the shift's dropped guard limb) returns
    quotient −32768. -/
theorem c3_fourway_division_disagrees_at_65537_div_2 :
    BigInt.toInt 16 (BigInt.PlainDiv 16 ⟨2, [1, 1]⟩ ⟨1, [2]⟩ true).1 = 32768 ∧
    ((BigInt.PlainDiv 16 ⟨2, [1, 1]⟩ ⟨1, [2]⟩ true).2).map (BigInt.toInt 16) = some 1 ∧
    BigInt.toInt 16 (BigInt.DivAlgA 16 ⟨2, [1, 1]⟩ ⟨1, [2]⟩ true).1 = 32768 ∧
    ((BigInt.DivAlgA 16 ⟨2, [1, 1]⟩ ⟨1, [2]⟩ true).2).map (BigInt.toInt 16) = some 1 ∧
    BigInt.toInt 16 (BigInt.DivAlgB 16 ⟨2, [1, 1]⟩ ⟨1, [2]⟩ true).1 = 32768 ∧
    ((BigInt.DivAlgB 16 ⟨2, [1, 1]⟩ ⟨1, [2]⟩ true).2).map (BigInt.toInt 16) = some 1 ∧
    BigInt.toInt 16 (BigInt.BasicDiv 16 ⟨2, [1, 1]⟩ 2 true).1 = -32768 ∧
    (BigInt.BasicDiv 16 ⟨2, [1, 1]⟩ 2 true).2 = some 0 ∧
    BigInt.toInt 16 (BigInt.BasicDiv 16 ⟨2, [1, 1]⟩ 2 true).1 ≠
      BigInt.toInt 16 (BigInt.PlainDiv 16 ⟨2, [1, 1]⟩ ⟨1, [2]⟩ true).1 := by
  decide

/-- C6: the `BasicDivEq` remainder convention fails on the power-of-two
    right-shift path.  With LIMB = 16, receiver a = 65537 (non-negative) and
    scalar divisor r = 2, the claim demands `*mod = |a| mod 2 = 1`, but the
    shift path leaves the accumulator `t` at 0 and the code emits 0. -/
theorem c6_basicdiveq_pow2_mod_emits_zero :
    BigInt.toInt 16 (⟨2, [1, 1]⟩ : BigInt) = 65537 ∧
    BigInt.Sign 16 (⟨2, [1, 1]⟩ : BigInt) = false ∧
    (BigInt.BasicDivEq 16 ⟨2, [1, 1]⟩ 2 true).2 = some 0 ∧
    (65537 : Nat) % 2 = 1 ∧ (0 : Nat) ≠ 65537 % 2 := by
  decide

/-- C7: the shift laws fail on the code.  With LIMB = 16 and a = 255 ≥ 0,
    `a << 16` takes the `r == 0` branch of `operator<<=`, whose copy loop
    stops at index q+1 and never moves `val[0]` into cell q; the result is 0
    instead of 255·2^16 = 16711680, and the round trip `(a << 16) >> 16`
    returns 0 ≠ a even though a ≥ 0 and no MAX_CAP overflow is involved. -/
theorem c7_shift_laws_fail_at_255_shl_16 :
    (0 : Int) ≤ BigInt.toInt 16 (⟨1, [255]⟩ : BigInt) ∧
    BigInt.toInt 16 (⟨1, [255]⟩ : BigInt) * 2 ^ 16 = 16711680 ∧
    BigInt.toInt 16 (BigInt.shlAssign 16 ⟨1, [255]⟩ 16) = 0 ∧
    BigInt.toInt 16 (BigInt.shrAssign 16 (BigInt.shlAssign 16 ⟨1, [255]⟩ 16) 16) = 0 ∧
    BigInt.toInt 16 (BigInt.shlAssign 16 ⟨1, [255]⟩ 16) ≠
      BigInt.toInt 16 (⟨1, [255]⟩ : BigInt) * 2 ^ 16 ∧
    BigInt.toInt 16 (BigInt.shrAssign 16 (BigInt.shlAssign 16 ⟨1, [255]⟩ 16) 16) ≠
      BigInt.toInt 16 (⟨1, [255]⟩ : BigInt) := by
  decide

/-- C8: canonical form fails after public operations.  With LIMB = 16:
    (i) 32768 << 16 leaves the length-2 buffer [0, 0], which `ShrinkLen`
    would reduce — the minimal-length part of the §3 invariant is violated;
    (ii) `PlainDivEq` on 32768 % 98304 emits the remainder buffer [0x8000]
    with no zero guard limb, so the non-negative remainder 32768 is stored
    with its sign bit set and reads back as −32768 — the sign-invariant part
    is violated. -/
theorem c8_canonical_form_fails_after_shl_and_plaindiv :
    (BigInt.shlAssign 16 ⟨2, [32768, 0]⟩ 16).len = 2 ∧
    (BigInt.shlAssign 16 ⟨2, [32768, 0]⟩ 16).val = [0, 0] ∧
    BigInt.ShrinkLen 16 (BigInt.shlAssign 16 ⟨2, [32768, 0]⟩ 16) ≠
      BigInt.shlAssign 16 ⟨2, [32768, 0]⟩ 16 ∧
    BigInt.toInt 16 (⟨2, [32768, 0]⟩ : BigInt) = 32768 ∧
    BigInt.toInt 16 ((BigInt.PlainDivEq 16 ⟨2, [32768, 0]⟩ ⟨2, [32768, 1]⟩ true).1) = 0 ∧
    (BigInt.PlainDivEq 16 ⟨2, [32768, 0]⟩ ⟨2, [32768, 1]⟩ true).2 = some ⟨1, [32768]⟩ ∧
    BigInt.Sign 16 (⟨1, [32768]⟩ : BigInt) = true ∧
    BigInt.toInt 16 (⟨1, [32768]⟩ : BigInt) = -32768 := by
  decide

/-- C9: the in-bounds claim fails for a divisor of canonical length 2.  With
    LIMB = 32, a = 2^64 (len 3) and b = 2^32 (len 2, top limb 1), `a /= b`
    dispatches to `DivEqAlgA` (operands do not both fit 64 bits, b has more
    than one limb, LIMB > 21), the long-division loop is reached (b > 0 and
    |a| ≥ |b|), the normalization shift `mov = 31` is nonzero, and both the
    `rhs.val_[rhs.len_ - 3]` normalization read and the `val_[i + rhs.len_
    - 3]` window read at i = 0 address the size_t index 2^64 − 1, outside
    the respective buffers. -/
theorem c9_algA_reads_out_of_bounds_for_len2_divisor :
    ¬((3 : Nat) ≤ 64 / 32 ∧ (2 : Nat) ≤ 64 / 32) ∧ (2 : Nat) ≠ 1 ∧ (21 : Nat) < 32 ∧
    BigInt.toInt 32 (⟨2, [0, 1]⟩ : BigInt) ≠ 0 ∧
    BigInt.Sign 32 (⟨2, [0, 1]⟩ : BigInt) = false ∧
    ¬(BigInt.toInt 32 (⟨3, [0, 0, 1]⟩ : BigInt) < BigInt.toInt 32 (⟨2, [0, 1]⟩ : BigInt)) ∧
    BigInt.movOf 32 (BigInt.limb ⟨2, [0, 1]⟩ 1) = 31 ∧
    BigInt.algAV2LowIdx 2 = 2 ^ 64 - 1 ∧
    ¬(BigInt.algAV2LowIdx 2 < 2) ∧
    BigInt.algAU2LowIdx 0 2 = 2 ^ 64 - 1 ∧
    ¬(BigInt.algAU2LowIdx 0 2 < 3) := by
  decide

/-- C10: right shift is logical at the top.  For any negative value (sign bit
    of the top limb set), a shift count with k % LIMB ≠ 0 and k / LIMB < len
    takes the combining branch of `operator>>=`; the new top limb is
    `val[len-1] >> r` with zeros shifted in, so it is nonzero (no top-limb
    drop) and its sign bit is clear: the result is non-negative. -/
theorem c10_right_shift_on_negative_is_logical (L : Nat) (a : BigInt) (k : Nat)
    (hL : 1 ≤ L) (hwf : a.val.length = a.len) (hbound : ∀ x ∈ a.val, x < 2 ^ L)
    (hneg : BigInt.Sign L a = true) (hr : k % L ≠ 0) (hq : k / L < a.len) :
    BigInt.Sign L (BigInt.shrAssign L a k) = false ∧
    0 ≤ BigInt.toInt L (BigInt.shrAssign L a k) := by
  have hlen1 : 1 ≤ a.len := Nat.lt_of_le_of_lt (Nat.zero_le _) hq
  have htop_lt : BigInt.limb a (a.len - 1) < 2 ^ L := by
    have hidx : a.len - 1 < a.val.length := by omega
    rw [BigInt.limb, List.getD_eq_getElem _ _ hidx]
    exact hbound _ (List.getElem_mem hidx)
  have htop_ge : 2 ^ (L - 1) ≤ BigInt.limb a (a.len - 1) := of_decide_eq_true hneg
  have hrL : k % L < L := Nat.mod_lt _ (by omega)
  have hrpos : 0 < k % L := Nat.pos_of_ne_zero hr
  have hcell_lt : BigInt.limb a (a.len - 1) / 2 ^ (k % L) < 2 ^ (L - 1) := by
    have h1 : BigInt.limb a (a.len - 1) < 2 ^ (L - (k % L)) * 2 ^ (k % L) := by
      rw [← pow_add]
      have h : L - (k % L) + (k % L) = L := by omega
      rw [h]; exact htop_lt
    have h2 : BigInt.limb a (a.len - 1) / 2 ^ (k % L) < 2 ^ (L - (k % L)) :=
      (Nat.div_lt_iff_lt_mul (Nat.pos_pow_of_pos _ (by omega))).mpr h1
    exact Nat.lt_of_lt_of_le h2 (Nat.pow_le_pow_right (by omega) (by omega))
  have hcell_ne : BigInt.limb a (a.len - 1) / 2 ^ (k % L) ≠ 0 := by
    have h1 : 2 ^ (k % L) ≤ 2 ^ (L - 1) := Nat.pow_le_pow_right (by omega) (by omega)
    have h2 : 2 ^ (k % L) ≤ BigInt.limb a (a.len - 1) := le_trans h1 htop_ge
    have h3 : 1 ≤ BigInt.limb a (a.len - 1) / 2 ^ (k % L) :=
      (Nat.one_le_div_iff (Nat.pos_pow_of_pos (k % L) (by omega))).mpr h2
    omega
  have hcelltop : BigInt.shrCell L (k / L) (k % L) a (a.len - k / L - 1) =
      BigInt.limb a (a.len - 1) / 2 ^ (k % L) := by
    rw [BigInt.shrCell, if_pos hrpos, if_pos rfl]
  have hnotle : ¬(a.len ≤ k / L) := by omega
  have hdrop : ¬(1 < a.len - k / L ∧
      BigInt.shrCell L (k / L) (k % L) a (a.len - k / L - 1) = 0) := by
    rw [hcelltop]; tauto
  have hres : BigInt.shrAssign L a k =
      ⟨a.len - k / L, (List.range (a.len - k / L)).map (BigInt.shrCell L (k / L) (k % L) a)⟩ := by
    rw [BigInt.shrAssign]
    simp only [if_neg hnotle, if_neg hdrop]
  have hsign : BigInt.Sign L (BigInt.shrAssign L a k) = false := by
    rw [hres, BigInt.Sign, decide_eq_false_iff_not, BigInt.limb]
    have hlist : ((List.range (a.len - k / L)).map
        (BigInt.shrCell L (k / L) (k % L) a)).getD (a.len - k / L - 1) 0 =
        BigInt.shrCell L (k / L) (k % L) a (a.len - k / L - 1) :=
      getD_range_map _ _ _ (by omega)
    intro hcon
    rw [show (⟨a.len - k / L, (List.range (a.len - k / L)).map
      (BigInt.shrCell L (k / L) (k % L) a)⟩ : BigInt).len = a.len - k / L from rfl] at hcon
    rw [show (⟨a.len - k / L, (List.range (a.len - k / L)).map
      (BigInt.shrCell L (k / L) (k % L) a)⟩ : BigInt).val = (List.range (a.len - k / L)).map
      (BigInt.shrCell L (k / L) (k % L) a) from rfl] at hcon
    rw [hlist, hcelltop] at hcon
    omega
  refine ⟨hsign, ?_⟩
  rw [BigInt.toInt, hsign]
  simp only [Bool.false_eq_true, if_false]
  exact Int.ofNat_nonneg _

/-- Witness for C10 at LIMB = 8, a = −128 (limbs [0x80]), k = 1: the shifted
    result is non-negative. -/
theorem c10_witness :
    BigInt.Sign 8 (BigInt.shrAssign 8 ⟨1, [128]⟩ 1) = false ∧
    0 ≤ BigInt.toInt 8 (BigInt.shrAssign 8 ⟨1, [128]⟩ 1) :=
  c10_right_shift_on_negative_is_logical 8 ⟨1, [128]⟩ 1 (by decide) (by decide)
    (by decide) (by decide) (by decide) (by decide)

/-- C4: the division dispatch of `operator/=`: `PlainDivEq` when both
    operands fit 64 bits (len·LIMB ≤ 64), else `BasicDivEq` on the single
    limb when b.len = 1, else Algorithm A when LIMB > 21 and Algorithm B when
    LIMB ≤ 21; and `DivEqAlgB` with LIMB > 21 executes Algorithm A instead. -/
theorem c4_division_dispatch (L : Nat) (a b : BigInt)
    (hL : L = 8 ∨ L = 16 ∨ L = 32) :
    (a.len * L ≤ 64 ∧ b.len * L ≤ 64 →
      BigInt.divAssign L a b = (BigInt.PlainDivEq L a b false).1) ∧
    (¬(a.len * L ≤ 64 ∧ b.len * L ≤ 64) → b.len = 1 →
      BigInt.divAssign L a b = (BigInt.BasicDivEq L a (BigInt.limb b 0) false).1) ∧
    (¬(a.len * L ≤ 64 ∧ b.len * L ≤ 64) → b.len ≠ 1 → 21 < L →
      BigInt.divAssign L a b = (BigInt.DivEqAlgA L a b false).1) ∧
    (¬(a.len * L ≤ 64 ∧ b.len * L ≤ 64) → b.len ≠ 1 → L ≤ 21 →
      BigInt.divAssign L a b = (BigInt.DivEqAlgB L a b false).1) ∧
    (21 < L → ∀ m : Bool, BigInt.DivEqAlgB L a b m = BigInt.DivEqAlgA L a b m) := by
  have hiff : (a.len ≤ 64 / L ∧ b.len ≤ 64 / L) ↔ (a.len * L ≤ 64 ∧ b.len * L ≤ 64) := by
    rcases hL with h | h | h <;> subst h <;> omega
  refine ⟨?_, ?_, ?_, ?_, ?_⟩
  · intro h
    rw [BigInt.divAssign, if_pos (hiff.mpr h)]
  · intro hn h1
    rw [BigInt.divAssign, if_neg (fun hc => hn (hiff.mp hc)), if_pos h1]
  · intro hn h1 h21
    rw [BigInt.divAssign, if_neg (fun hc => hn (hiff.mp hc)), if_neg h1, if_pos h21]
  · intro hn h1 h21
    rw [BigInt.divAssign, if_neg (fun hc => hn (hiff.mp hc)), if_neg h1,
      if_neg (by omega : ¬21 < L)]
  · intro h21 m
    rw [BigInt.DivEqAlgB, if_pos h21]

/-- Witness for C4 at LIMB = 32 with a = 2^64 (len 3) and b = 2^64 + 3
    (len 3): the dispatch equations at a concrete input. -/
theorem c4_witness :
    ((⟨3, [0, 0, 1]⟩ : BigInt).len * 32 ≤ 64 ∧ (⟨3, [3, 0, 1]⟩ : BigInt).len * 32 ≤ 64 →
      BigInt.divAssign 32 ⟨3, [0, 0, 1]⟩ ⟨3, [3, 0, 1]⟩ =
        (BigInt.PlainDivEq 32 ⟨3, [0, 0, 1]⟩ ⟨3, [3, 0, 1]⟩ false).1) ∧
    (¬((⟨3, [0, 0, 1]⟩ : BigInt).len * 32 ≤ 64 ∧ (⟨3, [3, 0, 1]⟩ : BigInt).len * 32 ≤ 64) →
      (⟨3, [3, 0, 1]⟩ : BigInt).len = 1 →
      BigInt.divAssign 32 ⟨3, [0, 0, 1]⟩ ⟨3, [3, 0, 1]⟩ =
        (BigInt.BasicDivEq 32 ⟨3, [0, 0, 1]⟩ (BigInt.limb ⟨3, [3, 0, 1]⟩ 0) false).1) ∧
    (¬((⟨3, [0, 0, 1]⟩ : BigInt).len * 32 ≤ 64 ∧ (⟨3, [3, 0, 1]⟩ : BigInt).len * 32 ≤ 64) →
      (⟨3, [3, 0, 1]⟩ : BigInt).len ≠ 1 → 21 < 32 →
      BigInt.divAssign 32 ⟨3, [0, 0, 1]⟩ ⟨3, [3, 0, 1]⟩ =
        (BigInt.DivEqAlgA 32 ⟨3, [0, 0, 1]⟩ ⟨3, [3, 0, 1]⟩ false).1) ∧
    (¬((⟨3, [0, 0, 1]⟩ : BigInt).len * 32 ≤ 64 ∧ (⟨3, [3, 0, 1]⟩ : BigInt).len * 32 ≤ 64) →
      (⟨3, [3, 0, 1]⟩ : BigInt).len ≠ 1 → (32 : Nat) ≤ 21 →
      BigInt.divAssign 32 ⟨3, [0, 0, 1]⟩ ⟨3, [3, 0, 1]⟩ =
        (BigInt.DivEqAlgB 32 ⟨3, [0, 0, 1]⟩ ⟨3, [3, 0, 1]⟩ false).1) ∧
    (21 < 32 → ∀ m : Bool, BigInt.DivEqAlgB 32 ⟨3, [0, 0, 1]⟩ ⟨3, [3, 0, 1]⟩ m =
      BigInt.DivEqAlgA 32 ⟨3, [0, 0, 1]⟩ ⟨3, [3, 0, 1]⟩ m) :=
  c4_division_dispatch 32 ⟨3, [0, 0, 1]⟩ ⟨3, [3, 0, 1]⟩ (Or.inr (Or.inr rfl))

/-- C5: the Algorithm A trial-quotient invariant.  At an iteration of the
    `DivEqAlgA` main loop, let the current remainder window be
    `u = (u1·2^L + u2)·k + ul` and the shifted divisor `v = (v1·2^L + v2)·k +
    vl` (so `u1` is the virtually-shifted top double-limb, `u2` the next limb,
    `v1`, `v2` the two normalized divisor head limbs, `k` the scale of the
    ignored tails), with the normalization guarantee `2^(L-1) ≤ v1 < 2^L` and
    the loop invariant `u < 2^L · v`.  Then the trial quotient produced by the
    clamp and the single refinement step differs from the true quotient digit
    `u / v` by at most 1, even where the uint64 right-hand side of the
    refinement test wraps. -/
theorem c5_algA_trial_quotient_within_one
    (L k v1 v2 u1 u2 vl ul : Nat)
    (hL : 2 ≤ L) (hL32 : L ≤ 32)
    (hv1l : 2 ^ (L - 1) ≤ v1) (hv1u : v1 < 2 ^ L)
    (hv2 : v2 < 2 ^ L) (hu2 : u2 < 2 ^ L)
    (hk : 1 ≤ k) (hvl : vl < k) (hul : ul < k)
    (hinv : (u1 * 2 ^ L + u2) * k + ul < 2 ^ L * ((v1 * 2 ^ L + v2) * k + vl)) :
    BigInt.algATrialQ L v1 v2 u1 u2 ≤
      ((u1 * 2 ^ L + u2) * k + ul) / ((v1 * 2 ^ L + v2) * k + vl) + 1 ∧
    ((u1 * 2 ^ L + u2) * k + ul) / ((v1 * 2 ^ L + v2) * k + vl) ≤
      BigInt.algATrialQ L v1 v2 u1 u2 + 1 := by
  set b := 2 ^ L with hb
  set U := u1 * b + u2 with hU
  set V := v1 * b + v2 with hV
  set u := U * k + ul with hu
  set v := V * k + vl with hv
  set q := u / v with hq
  set s := u1 / v1 with hs2
  set t := U / V with ht
  set d := U / (V + 1) with hd
  have hb4 : 4 ≤ b := by
    rw [hb]
    calc (4 : Nat) = 2 ^ 2 := rfl
    _ ≤ 2 ^ L := Nat.pow_le_pow_right (by norm_num) hL
  have hv1pos : 0 < v1 := lt_of_lt_of_le (Nat.pos_pow_of_pos _ (by norm_num)) hv1l
  have hbsplit : b = 2 * 2 ^ (L - 1) := by
    rw [hb, ← pow_succ']
    congr 1
    omega
  have hb2v1 : b ≤ 2 * v1 := by omega
  have hVb : b ≤ V := by
    rw [hV]
    calc b = 1 * b := (one_mul b).symm
    _ ≤ v1 * b := Nat.mul_le_mul_right b hv1pos
    _ ≤ v1 * b + v2 := Nat.le_add_right _ _
  have hVpos : 0 < V := by omega
  have hvV : V ≤ v := by
    rw [hv]
    calc V = V * 1 := (mul_one V).symm
    _ ≤ V * k := Nat.mul_le_mul_left V hk
    _ ≤ V * k + vl := Nat.le_add_right _ _
  have hvpos : 0 < v := by omega
  have hqb : q < b := by
    rw [hq]
    exact (Nat.div_lt_iff_lt_mul hvpos).mpr hinv
  have hvVk : v ≤ (V + 1) * k := by
    rw [hv]
    calc V * k + vl ≤ V * k + k := by omega
    _ = (V + 1) * k := by ring
  have hUb : U < b * (V + 1) := by
    have h1 : U * k < (b * (V + 1)) * k := by
      calc U * k ≤ u := by rw [hu]; omega
      _ < b * v := hinv
      _ ≤ b * ((V + 1) * k) := Nat.mul_le_mul_left b hvVk
      _ = (b * (V + 1)) * k := by ring
    exact lt_of_mul_lt_mul_right h1 (Nat.zero_le k)
  have hu1V : u1 ≤ V := by
    have h1 : u1 * b < (V + 1) * b := by
      calc u1 * b ≤ U := by rw [hU]; omega
      _ < b * (V + 1) := hUb
      _ = (V + 1) * b := by ring
    have h2 := lt_of_mul_lt_mul_right h1 (Nat.zero_le b)
    omega
  have hqt : q ≤ t := by
    have h1 : q * V * k < (U + 1) * k := by
      calc q * V * k = q * (V * k) := by ring
      _ ≤ q * v := Nat.mul_le_mul_left q (by rw [hv]; omega)
      _ ≤ u := by rw [hq]; exact Nat.div_mul_le_self u v
      _ = U * k + ul := hu
      _ < U * k + k := by omega
      _ = (U + 1) * k := by ring
    have h2 : q * V < U + 1 := lt_of_mul_lt_mul_right h1 (Nat.zero_le k)
    rw [ht]
    exact (Nat.le_div_iff_mul_le hVpos).mpr (by omega)
  have htv : t * V ≤ U := by rw [ht]; exact Nat.div_mul_le_self U V
  have hts : t ≤ s := by
    have h1 : t * v1 * b < (u1 + 1) * b := by
      calc t * v1 * b = t * (v1 * b) := by ring
      _ ≤ t * V := Nat.mul_le_mul_left t (by rw [hV]; omega)
      _ ≤ U := htv
      _ = u1 * b + u2 := hU
      _ < u1 * b + b := by omega
      _ = (u1 + 1) * b := by ring
    have h2 : t * v1 < u1 + 1 := lt_of_mul_lt_mul_right h1 (Nat.zero_le b)
    rw [hs2]
    exact (Nat.le_div_iff_mul_le hv1pos).mpr (by omega)
  have hdV : d * (V + 1) ≤ U := by rw [hd]; exact Nat.div_mul_le_self U (V + 1)
  have hdq : d ≤ q := by
    rw [hq]
    apply (Nat.le_div_iff_mul_le hvpos).mpr
    calc d * v ≤ d * ((V + 1) * k) := Nat.mul_le_mul_left d hvVk
    _ = d * (V + 1) * k := by ring
    _ ≤ U * k := Nat.mul_le_mul_right k hdV
    _ ≤ u := by rw [hu]; omega
  have hUVV : U < V * (V + 1) := lt_of_lt_of_le hUb (Nat.mul_le_mul_right _ hVb)
  have hdltV : d < V := by
    rw [hd]
    exact (Nat.div_lt_iff_lt_mul (Nat.succ_pos V)).mpr hUVV
  have hUd1 : U < (d + 1) * (V + 1) := by
    have h1 := Nat.div_add_mod U (V + 1)
    have h2 : U % (V + 1) < V + 1 := Nat.mod_lt _ (Nat.succ_pos V)
    calc U = (V + 1) * d + U % (V + 1) := by rw [hd]; omega
    _ < (V + 1) * d + (V + 1) := by omega
    _ = (d + 1) * (V + 1) := by ring
  have htd : t ≤ d + 1 := by
    have h3 : U < (d + 2) * V := by
      calc U < (d + 1) * (V + 1) := hUd1
      _ = (d + 1) * V + (d + 1) := by ring
      _ ≤ (d + 1) * V + V := by omega
      _ = (d + 2) * V := by ring
    have h4 := (Nat.div_lt_iff_lt_mul hVpos).mpr h3
    rw [ht]
    omega
  have hV1head : V + 1 ≤ (v1 + 1) * b := by
    rw [hV]
    calc v1 * b + v2 + 1 ≤ v1 * b + b := by omega
    _ = (v1 + 1) * b := by ring
  have hsv1 : s * v1 ≤ u1 := by rw [hs2]; exact Nat.div_mul_le_self u1 v1
  have hsd2 : s ≤ d + 2 := by
    by_contra hcon
    push_neg at hcon
    have h1 : s * v1 * b < (d + 1) * (v1 + 1) * b := by
      calc s * v1 * b ≤ u1 * b := Nat.mul_le_mul_right b hsv1
      _ ≤ U := by rw [hU]; omega
      _ < (d + 1) * (V + 1) := hUd1
      _ ≤ (d + 1) * ((v1 + 1) * b) := Nat.mul_le_mul_left _ hV1head
      _ = (d + 1) * (v1 + 1) * b := by ring
    have h2 : s * v1 < (d + 1) * (v1 + 1) := lt_of_mul_lt_mul_right h1 (Nat.zero_le b)
    have h3 : (d + 3) * v1 ≤ s * v1 := Nat.mul_le_mul_right v1 hcon
    have h5 : (d + 3) * v1 < (d + 1) * (v1 + 1) := lt_of_le_of_lt h3 h2
    have e1 : (d + 3) * v1 = d * v1 + 3 * v1 := by ring
    have e2 : (d + 1) * (v1 + 1) = d * v1 + v1 + d + 1 := by ring
    omega
  set q0 := BigInt.algAClamp L u1 v1 with hq0def
  have hq0cases : (b ≤ s ∧ q0 = b - 1) ∨ (¬b ≤ s ∧ q0 = s) := by
    rw [hq0def, BigInt.algAClamp, ← hb, ← hs2]
    by_cases hcl : b ≤ s
    · exact Or.inl ⟨hcl, by rw [if_pos hcl]⟩
    · exact Or.inr ⟨hcl, by rw [if_neg hcl]⟩
  have hq0s : q0 ≤ s := by rcases hq0cases with ⟨h1, h2⟩ | ⟨h1, h2⟩ <;> omega
  have hqq0 : q ≤ q0 := by rcases hq0cases with ⟨h1, h2⟩ | ⟨h1, h2⟩ <;> omega
  have hq0d2 : q0 ≤ d + 2 := le_trans hq0s hsd2
  have hr0 : q0 * v1 ≤ u1 := le_trans (Nat.mul_le_mul_right v1 hq0s) hsv1
  clear_value q0 d t s q v u V U b
  rw [BigInt.algATrialQ, ← hq0def, ← hb]
  split_ifs with htest
  · -- refinement fired: result is q0 - 1
    constructor <;> omega
  · -- refinement did not fire: result is q0; must show q0 ≤ q + 1
    push_neg at htest
    refine ⟨?_, by omega⟩
    by_cases hwrap : b * (u1 - q0 * v1) + u2 < 2 ^ 64
    · -- no uint64 wrap: the classical argument gives q0 ≤ U/V ≤ d + 1 ≤ q + 1
      rw [Nat.mod_eq_of_lt hwrap] at htest
      have e1 : q0 * v1 + (u1 - q0 * v1) = u1 := by omega
      have h6 : q0 * V ≤ U := by
        calc q0 * V = q0 * v1 * b + q0 * v2 := by rw [hV]; ring
        _ ≤ q0 * v1 * b + (b * (u1 - q0 * v1) + u2) := by omega
        _ = (q0 * v1 + (u1 - q0 * v1)) * b + u2 := by ring
        _ = u1 * b + u2 := by rw [e1]
        _ = U := hU.symm
      have h7 : q0 ≤ t := by
        rw [ht]
        exact (Nat.le_div_iff_mul_le hVpos).mpr h6
      omega
    · -- uint64 wrap: b*r + u2 ≥ 2^64 forces r ≥ b, which forces the clamped
      -- case with u1 ≥ (b-1)*v1 + b, whence the true digit is already b - 1
      push_neg at hwrap
      have h8 : b * b ≤ 2 ^ 64 := by
        calc b * b = 2 ^ (L + L) := by rw [hb, ← pow_add]
        _ ≤ 2 ^ 64 := Nat.pow_le_pow_right (by norm_num) (by omega)
      have e3 : b * (b - 1) + b = b * b := by
        have h9 : b - 1 + 1 = b := by omega
        calc b * (b - 1) + b = b * (b - 1 + 1) := by ring
        _ = b * b := by rw [h9]
      have h10 : b * (b - 1) < b * (u1 - q0 * v1) := by omega
      have h11 : b - 1 < u1 - q0 * v1 := Nat.lt_of_mul_lt_mul_left h10
      rcases hq0cases with ⟨hcl, hq0eq⟩ | ⟨hcl, hq0eq⟩
      · -- clamped: q0 = b - 1 and u1 ≥ (b-1)*v1 + b, so d ≥ b - 1 and q = b - 1
        rw [hq0eq] at h11 ⊢
        have hu1ge : (b - 1) * v1 + b ≤ u1 := by omega
        have hd_ge : b - 1 ≤ d := by
          rw [hd]
          apply (Nat.le_div_iff_mul_le (Nat.succ_pos V)).mpr
          have h12 : (b - 1) * b ≤ b * b := Nat.mul_le_mul_right b (by omega)
          calc (b - 1) * (V + 1) ≤ (b - 1) * ((v1 + 1) * b) :=
                Nat.mul_le_mul_left _ hV1head
          _ = ((b - 1) * v1) * b + (b - 1) * b := by ring
          _ ≤ ((b - 1) * v1) * b + b * b := by omega
          _ = ((b - 1) * v1 + b) * b := by ring
          _ ≤ u1 * b := Nat.mul_le_mul_right b hu1ge
          _ ≤ U := by rw [hU]; omega
        omega
      · -- unclamped is impossible: r = u1 % v1 < v1 < b contradicts r ≥ b
        exfalso
        rw [hq0eq] at h11
        have h13 := Nat.div_add_mod u1 v1
        have h14 : u1 % v1 < v1 := Nat.mod_lt _ hv1pos
        have e4 : s * v1 = v1 * (u1 / v1) := by rw [hs2]; ring
        omega

/-- Witness for C5 at LIMB = 8 with normalized divisor head v1 = 128, v2 = 0,
    window u1 = 255, u2 = 0 and trivial tails (k = 1): the hypotheses hold and
    the computed trial quotient is within 1 of the true digit. -/
theorem c5_witness :
    ((255 * 2 ^ 8 + 0) * 1 + 0 < 2 ^ 8 * ((128 * 2 ^ 8 + 0) * 1 + 0)) ∧
    (BigInt.algATrialQ 8 128 0 255 0 ≤
      ((255 * 2 ^ 8 + 0) * 1 + 0) / ((128 * 2 ^ 8 + 0) * 1 + 0) + 1 ∧
    ((255 * 2 ^ 8 + 0) * 1 + 0) / ((128 * 2 ^ 8 + 0) * 1 + 0) ≤
      BigInt.algATrialQ 8 128 0 255 0 + 1) :=
  ⟨by decide, c5_algA_trial_quotient_within_one 8 1 128 0 255 0 0 0 (by decide)
    (by decide) (by decide) (by decide) (by decide) (by decide) (by decide)
    (by decide) (by decide) (by decide)⟩
